import Mathlib

/-!
Verification of the PhyArch offline cache manager (src/sw.js) and the
native formula functions (src/physics_engine.cpp).

The service worker is embedded as pure functions over an explicit cache
storage state.  Cache storage (the browser CacheStorage) is an ordered
list of generations, each a name paired with an ordered list of cached
(url, response) entries.  The network is a function from url to an
optional response (`none` models a failed fetch).  The fetch handler is
translated branch by branch from src/sw.js; it returns the outcome, the
new storage, and the list of urls it fetched over the network (so that
"no network call" is expressible as an empty fetch list).
-/

/-- A stored / network response: status code and body. -/
structure Response where
  status : Nat
  body : String
deriving Repr, DecidableEq

/-- The entries of one cache generation, keyed by request url. -/
abbrev CacheEntries := List (String × Response)

/-- The browser CacheStorage: generations in creation order. -/
abbrev CacheStorage := List (String × CacheEntries)

/-- The network: a fetch either yields a response or fails (`none`). -/
abbrev Network := String → Option Response

/-- An inbound request: method, target url, and mode (JS `request.mode`). -/
structure Request where
  method : String
  url : String
  mode : String
deriving Repr, DecidableEq

/-- `const CACHE_NAME = 'phyarch-nexus-v1.1'` (src/sw.js line 2). -/
def CACHE_NAME : String := "phyarch-nexus-v1.1"

/-- `const OFFLINE_PAGE = '/offline.html'` (src/sw.js line 3). -/
def OFFLINE_PAGE : String := "/offline.html"

/-- `const STATIC_ASSETS = [...]` (src/sw.js lines 5-14). -/
def STATIC_ASSETS : List String :=
  ["/", "/index.html", "/manifest.json", "/icon-192.png", "/icon-512.png",
   "/screenshot-wide.png", "/screenshot-mobile.png", "/offline.html"]

/-- `cache.match(request)` on one generation: first entry with this url. -/
def cacheMatch (es : CacheEntries) (url : String) : Option Response :=
  (es.find? (fun e => e.1 == url)).map (fun e => e.2)

/-- `caches.match(request)`: search the generations in order. -/
def cachesMatch (s : CacheStorage) (url : String) : Option Response :=
  s.findSome? (fun g => cacheMatch g.2 url)

/-- `cache.put(url, r)` on one generation: overwrite the entry stored
under this url, or append a new one. -/
def entryPut : CacheEntries → String → Response → CacheEntries
  | [], url, r => [(url, r)]
  | e :: rest, url, r =>
    if e.1 == url then (url, r) :: rest else e :: entryPut rest url r

/-- `caches.open(name).then(cache => cache.put(url, r))`: put into the
generation named `name`, creating it when absent. -/
def cachePut : CacheStorage → String → String → Response → CacheStorage
  | [], name, url, r => [(name, [(url, r)])]
  | g :: rest, name, url, r =>
    if g.1 == name then (g.1, entryPut g.2 url r) :: rest
    else g :: cachePut rest name url r

/-- `caches.open(name)`: create an empty generation when absent. -/
def cacheOpen : CacheStorage → String → CacheStorage
  | [], name => [(name, [])]
  | g :: rest, name => if g.1 == name then g :: rest else g :: cacheOpen rest name

/-- The generation stored under `name`, when present. -/
def genGet (s : CacheStorage) (name : String) : Option CacheEntries :=
  (s.find? (fun g => g.1 == name)).map (fun g => g.2)

/-- The fetches performed by `cache.addAll(assets)`: all succeed or the
whole operation fails. -/
def fetchAll (net : Network) : List String → Option (List (String × Response))
  | [] => some []
  | a :: rest =>
    match net a with
    | none => none
    | some r => (fetchAll net rest).map (fun es => (a, r) :: es)

/-- The batch write of `cache.addAll`: put every fetched entry. -/
def putAll (s : CacheStorage) (name : String) (es : List (String × Response)) :
    CacheStorage :=
  es.foldl (fun acc e => cachePut acc name e.1 e.2) s

/-- Folding `entryPut` over a list of entries, inside one generation. -/
def entryPutAll (es0 : CacheEntries) (es : List (String × Response)) : CacheEntries :=
  es.foldl (fun acc e => entryPut acc e.1 e.2) es0

/-- Result of the install event: success flag and resulting storage. -/
structure InstallOutcome where
  ok : Bool
  storage : CacheStorage
deriving Repr, DecidableEq

/-- The install listener (src/sw.js lines 16-23):
`caches.open(CACHE_NAME).then(cache => cache.addAll(STATIC_ASSETS))`.
`addAll` is atomic: when any fetch fails nothing is written (the opened
generation stays as `caches.open` left it). -/
def install (net : Network) (s : CacheStorage) : InstallOutcome :=
  let s1 := cacheOpen s CACHE_NAME
  match fetchAll net STATIC_ASSETS with
  | none => ⟨false, s1⟩
  | some es => ⟨true, putAll s1 CACHE_NAME es⟩

/-- The activate listener (src/sw.js lines 25-34): delete every
generation whose name is not `CACHE_NAME`. -/
def activate (s : CacheStorage) : CacheStorage :=
  s.filter (fun g => g.1 == CACHE_NAME)

/-- JS `url.endsWith(asset)`: character-wise suffix comparison. -/
def urlEndsWith (url asset : String) : Bool :=
  asset.data.isSuffixOf url.data

/-- `STATIC_ASSETS.some(url => event.request.url.endsWith(url))`
(src/sw.js line 40). -/
def isStaticUrl (url : String) : Bool :=
  STATIC_ASSETS.any (fun a => urlEndsWith url a)

/-- What the fetch listener does with the event. -/
inductive HandleResult where
  /-- The listener returned without calling `respondWith`: the request
  goes to the network without interception. -/
  | passThrough
  /-- `respondWith` resolved with this response. -/
  | respond (r : Response)
  /-- `respondWith` resolved with `undefined` (`caches.match` miss). -/
  | respondNone
  /-- `respondWith` received a rejected promise. -/
  | failed
deriving Repr, DecidableEq

/-- Outcome of one fetch event: result, new storage, urls fetched over
the network by the handler itself. -/
structure HandleOutcome where
  result : HandleResult
  storage : CacheStorage
  fetched : List String
deriving Repr, DecidableEq

/-- The fetch listener (src/sw.js lines 36-61), branch by branch:
non-GET requests return without interception; static-matching urls are
served cache-first (on miss, fetch and store iff status 200); everything
else is network-first, falling back on failure to the offline page for
navigations and to an empty 503 response otherwise. -/
def handleFetch (net : Network) (s : CacheStorage) (req : Request) :
    HandleOutcome :=
  if req.method != "GET" then ⟨.passThrough, s, []⟩
  else if isStaticUrl req.url then
    match cachesMatch s req.url with
    | some cached => ⟨.respond cached, s, []⟩
    | none =>
      match net req.url with
      | some resp =>
        if resp.status == 200 then
          ⟨.respond resp, cachePut s CACHE_NAME req.url resp, [req.url]⟩
        else ⟨.respond resp, s, [req.url]⟩
      | none => ⟨.failed, s, [req.url]⟩
  else
    match net req.url with
    | some resp => ⟨.respond resp, s, [req.url]⟩
    | none =>
      if req.mode == "navigate" then
        match cachesMatch s OFFLINE_PAGE with
        | some off => ⟨.respond off, s, [req.url]⟩
        | none => ⟨.respondNone, s, [req.url]⟩
      else ⟨.respond ⟨503, ""⟩, s, [req.url]⟩

/-- `calculate_stress` (src/physics_engine.cpp lines 6-10), numbers
modelled as rationals. -/
def calculate_stress (force area : ℚ) : ℚ :=
  if area ≤ 0 then 0 else force / area

/-- `calculate_displacement` (src/physics_engine.cpp lines 12-16),
numbers modelled as rationals. -/
def calculate_displacement (force length area modulus : ℚ) : ℚ :=
  if area ≤ 0 ∨ modulus ≤ 0 then 0 else (force * length) / (area * modulus)

/-- Example network where every fetch succeeds (body echoes the url). -/
def okNet : Network := fun u => some ⟨200, u⟩

/-- Example unreachable network: every fetch fails. -/
def deadNet : Network := fun _ => none

/-- Example network answering every url with fresh content. -/
def freshNet : Network := fun _ => some ⟨200, "new"⟩

/-- Example storage holding one stale static entry in the current
generation. -/
def hitStorage : CacheStorage := [(CACHE_NAME, [("/index.html", ⟨200, "old"⟩)])]

/-- Example network where only `/api/data` is reachable. -/
def apiNet : Network :=
  fun u => if u == "/api/data" then some ⟨200, "data"⟩ else none

/-- Example network where only `/evil/index.html` is reachable. -/
def evilNet : Network :=
  fun u => if u == "/evil/index.html" then some ⟨200, "evil"⟩ else none

/-- Example storage holding only the offline page in the current
generation. -/
def offlineStorage : CacheStorage := [(CACHE_NAME, [(OFFLINE_PAGE, ⟨200, "off"⟩)])]

/-- Example network where exactly the fetch of `/index.html` fails. -/
def failNet : Network :=
  fun u => if u == "/index.html" then none else some ⟨200, u⟩

/-- Example storage holding one previous generation (an older version
tag) that serves the root page. -/
def oldStorage : CacheStorage :=
  [("phyarch-nexus-v1.0", [("/", ⟨200, "oldroot"⟩)])]

/-!  Association-list lemmas about single-generation entry updates. -/

theorem find?_entryPut_self (es : CacheEntries) (url : String) (r : Response) :
    (entryPut es url r).find? (fun e => e.1 == url) = some (url, r) := by
  induction es with
  | nil => simp [entryPut, List.find?]
  | cons e rest ih =>
    by_cases h : e.1 == url
    · simp [entryPut, h, List.find?]
    · simp [entryPut, h, List.find?, ih]

theorem cacheMatch_entryPut_self (es : CacheEntries) (url : String) (r : Response) :
    cacheMatch (entryPut es url r) url = some r := by
  simp [cacheMatch, find?_entryPut_self]

theorem find?_entryPut_ne (es : CacheEntries) (url u : String) (r : Response)
    (h : u ≠ url) :
    (entryPut es url r).find? (fun e => e.1 == u) = es.find? (fun e => e.1 == u) := by
  have hne : (url == u) = false := by
    simpa using fun hc => h (hc.symm)
  induction es with
  | nil => simp [entryPut, List.find?, hne]
  | cons e rest ih =>
    by_cases he : e.1 == url
    · have hurl : e.1 = url := by simpa using he
      have h2 : (e.1 == u) = false := by rw [hurl]; exact hne
      simp [entryPut, he, List.find?, hne, h2]
    · by_cases heu : e.1 == u
      · simp [entryPut, he, List.find?, heu]
      · simp [entryPut, he, List.find?, heu, ih]

theorem cacheMatch_entryPut_ne (es : CacheEntries) (url u : String) (r : Response)
    (h : u ≠ url) :
    cacheMatch (entryPut es url r) u = cacheMatch es u := by
  simp [cacheMatch, find?_entryPut_ne _ _ _ _ h]

theorem cacheMatch_entryPutAll_not_mem (es : List (String × Response))
    (es0 : CacheEntries) (a : String)
    (ha : a ∉ es.map Prod.fst) :
    cacheMatch (entryPutAll es0 es) a = cacheMatch es0 a := by
  induction es generalizing es0 with
  | nil => simp [entryPutAll]
  | cons e rest ih =>
    simp only [List.map_cons, List.mem_cons, not_or] at ha
    have h1 : cacheMatch (entryPutAll (entryPut es0 e.1 e.2) rest) a =
        cacheMatch (entryPut es0 e.1 e.2) a := ih _ ha.2
    have h2 : cacheMatch (entryPut es0 e.1 e.2) a = cacheMatch es0 a :=
      cacheMatch_entryPut_ne _ _ _ _ ha.1
    calc cacheMatch (entryPutAll es0 (e :: rest)) a
        = cacheMatch (entryPutAll (entryPut es0 e.1 e.2) rest) a := by
          simp [entryPutAll]
      _ = cacheMatch es0 a := by rw [h1, h2]

theorem cacheMatch_entryPutAll_mem (es : List (String × Response))
    (es0 : CacheEntries) (a : String) (r : Response)
    (hnd : (es.map Prod.fst).Nodup) (hmem : (a, r) ∈ es) :
    cacheMatch (entryPutAll es0 es) a = some r := by
  induction es generalizing es0 with
  | nil => simp at hmem
  | cons e rest ih =>
    simp only [List.map_cons, List.nodup_cons] at hnd
    rcases List.mem_cons.mp hmem with hhead | htail
    · have hnotm : a ∉ rest.map Prod.fst := by
        rw [← hhead] at hnd
        simpa using hnd.1
      have h1 : cacheMatch (entryPutAll (entryPut es0 e.1 e.2) rest) a =
          cacheMatch (entryPut es0 e.1 e.2) a :=
        cacheMatch_entryPutAll_not_mem rest _ a hnotm
      have h2 : cacheMatch (entryPut es0 e.1 e.2) a = some r := by
        rw [← hhead]
        exact cacheMatch_entryPut_self es0 a r
      calc cacheMatch (entryPutAll es0 (e :: rest)) a
          = cacheMatch (entryPutAll (entryPut es0 e.1 e.2) rest) a := by
            simp [entryPutAll]
        _ = some r := by rw [h1, h2]
    · have h1 := ih (entryPut es0 e.1 e.2) hnd.2 htail
      calc cacheMatch (entryPutAll es0 (e :: rest)) a
          = cacheMatch (entryPutAll (entryPut es0 e.1 e.2) rest) a := by
            simp [entryPutAll]
        _ = some r := h1

/-!  Lemmas about `fetchAll` (the fetches of `cache.addAll`). -/

theorem fetchAll_map_fst (net : Network) (l : List String)
    (es : List (String × Response)) (h : fetchAll net l = some es) :
    es.map Prod.fst = l := by
  induction l generalizing es with
  | nil =>
    simp only [fetchAll, Option.some.injEq] at h
    subst h; rfl
  | cons a rest ih =>
    simp only [fetchAll] at h
    cases hn : net a with
    | none => rw [hn] at h; simp at h
    | some r =>
      rw [hn] at h
      cases hf : fetchAll net rest with
      | none => rw [hf] at h; simp at h
      | some es' =>
        rw [hf] at h
        simp only [Option.map_some', Option.some.injEq] at h
        subst h
        simp [ih es' hf]

theorem fetchAll_net (net : Network) (l : List String)
    (es : List (String × Response)) (h : fetchAll net l = some es) :
    ∀ p ∈ es, net p.1 = some p.2 := by
  induction l generalizing es with
  | nil =>
    simp only [fetchAll, Option.some.injEq] at h
    subst h; intro p hp; simp at hp
  | cons a rest ih =>
    simp only [fetchAll] at h
    cases hn : net a with
    | none => rw [hn] at h; simp at h
    | some r =>
      rw [hn] at h
      cases hf : fetchAll net rest with
      | none => rw [hf] at h; simp at h
      | some es' =>
        rw [hf] at h
        simp only [Option.map_some', Option.some.injEq] at h
        subst h
        intro p hp
        rcases List.mem_cons.mp hp with hph | hpt
        · subst hph; simpa using hn
        · exact ih es' hf p hpt

theorem fetchAll_mem (net : Network) (l : List String)
    (es : List (String × Response)) (a : String)
    (h : fetchAll net l = some es) (ha : a ∈ l) :
    ∃ r, (a, r) ∈ es ∧ net a = some r := by
  rw [← fetchAll_map_fst net l es h] at ha
  obtain ⟨p, hp, hpa⟩ := List.mem_map.mp ha
  refine ⟨p.2, ?_, ?_⟩
  · have : (p.1, p.2) = p := rfl
    rw [← hpa, this]; exact hp
  · rw [← hpa]; exact fetchAll_net net l es h p hp

theorem fetchAll_none (net : Network) (l : List String) (a : String)
    (ha : a ∈ l) (hf : net a = none) :
    fetchAll net l = none := by
  induction l with
  | nil => simp at ha
  | cons b rest ih =>
    rcases List.mem_cons.mp ha with hb | hr
    · subst hb; simp [fetchAll, hf]
    · cases hn : net b with
      | none => simp [fetchAll, hn]
      | some r => simp [fetchAll, hn, ih hr]

/-!  Lemmas about `cachesMatch`, `cacheOpen` and `activate`. -/

theorem cachesMatch_cons (g : String × CacheEntries) (rest : CacheStorage)
    (url : String) :
    cachesMatch (g :: rest) url =
      match cacheMatch g.2 url with
      | some r => some r
      | none => cachesMatch rest url := by
  simp only [cachesMatch, List.findSome?_cons]
  cases cacheMatch g.2 url <;> rfl

theorem cachesMatch_cacheOpen (s : CacheStorage) (name url : String) :
    cachesMatch (cacheOpen s name) url = cachesMatch s url := by
  induction s with
  | nil => simp [cacheOpen, cachesMatch, cacheMatch, List.find?]
  | cons g rest ih =>
    by_cases h : g.1 == name
    · simp [cacheOpen, h]
    · rw [show cacheOpen (g :: rest) name = g :: cacheOpen rest name by
        simp [cacheOpen, h]]
      rw [cachesMatch_cons, cachesMatch_cons, ih]

theorem activate_cachePut (s : CacheStorage) (url : String) (r : Response) :
    activate (cachePut s CACHE_NAME url r) =
      cachePut (activate s) CACHE_NAME url r := by
  induction s with
  | nil => simp [activate, cachePut, List.filter]
  | cons g rest ih =>
    by_cases h : g.1 == CACHE_NAME
    · rw [show cachePut (g :: rest) CACHE_NAME url r =
          (g.1, entryPut g.2 url r) :: rest by simp [cachePut, h]]
      rw [show activate ((g.1, entryPut g.2 url r) :: rest) =
          (g.1, entryPut g.2 url r) :: activate rest by
        simp [activate, List.filter_cons, h]]
      rw [show activate (g :: rest) = g :: activate rest by
        simp [activate, List.filter_cons, h]]
      simp [cachePut, h]
    · rw [show cachePut (g :: rest) CACHE_NAME url r =
          g :: cachePut rest CACHE_NAME url r by simp [cachePut, h]]
      rw [show activate (g :: cachePut rest CACHE_NAME url r) =
          activate (cachePut rest CACHE_NAME url r) by
        simp [activate, List.filter_cons, h]]
      rw [show activate (g :: rest) = activate rest by
        simp [activate, List.filter_cons, h]]
      exact ih

theorem activate_cacheOpen (s : CacheStorage) :
    activate (cacheOpen s CACHE_NAME) = cacheOpen (activate s) CACHE_NAME := by
  induction s with
  | nil => simp [activate, cacheOpen, List.filter]
  | cons g rest ih =>
    by_cases h : g.1 == CACHE_NAME
    · rw [show cacheOpen (g :: rest) CACHE_NAME = g :: rest by
        simp [cacheOpen, h]]
      rw [show activate (g :: rest) = g :: activate rest by
        simp [activate, List.filter_cons, h]]
      simp [cacheOpen, h]
    · rw [show cacheOpen (g :: rest) CACHE_NAME = g :: cacheOpen rest CACHE_NAME by
        simp [cacheOpen, h]]
      rw [show activate (g :: cacheOpen rest CACHE_NAME) =
          activate (cacheOpen rest CACHE_NAME) by
        simp [activate, List.filter_cons, h]]
      rw [show activate (g :: rest) = activate rest by
        simp [activate, List.filter_cons, h]]
      exact ih

theorem activate_putAll (s : CacheStorage) (es : List (String × Response)) :
    activate (putAll s CACHE_NAME es) = putAll (activate s) CACHE_NAME es := by
  induction es generalizing s with
  | nil => simp [putAll]
  | cons e rest ih =>
    have h1 : putAll s CACHE_NAME (e :: rest) =
        putAll (cachePut s CACHE_NAME e.1 e.2) CACHE_NAME rest := rfl
    have h2 : putAll (activate s) CACHE_NAME (e :: rest) =
        putAll (cachePut (activate s) CACHE_NAME e.1 e.2) CACHE_NAME rest := rfl
    rw [h1, h2, ih, activate_cachePut]

theorem cacheOpen_activate_head (s : CacheStorage) :
    ∃ es0 rest, cacheOpen (activate s) CACHE_NAME = (CACHE_NAME, es0) :: rest := by
  cases hs : activate s with
  | nil => exact ⟨[], [], rfl⟩
  | cons g rest =>
    have hmem : g ∈ activate s := by rw [hs]; exact List.mem_cons_self _ _
    have hg : (g.1 == CACHE_NAME) = true := (List.mem_filter.mp hmem).2
    have hg' : g.1 = CACHE_NAME := by simpa using hg
    refine ⟨g.2, rest, ?_⟩
    rw [show cacheOpen (g :: rest) CACHE_NAME = g :: rest by simp [cacheOpen, hg]]
    rw [show g = (CACHE_NAME, g.2) by rw [← hg']]

theorem putAll_head (es : List (String × Response)) (es0 : CacheEntries)
    (rest : CacheStorage) :
    putAll ((CACHE_NAME, es0) :: rest) CACHE_NAME es =
      (CACHE_NAME, entryPutAll es0 es) :: rest := by
  induction es generalizing es0 with
  | nil => simp [putAll, entryPutAll]
  | cons e tail ih =>
    have h1 : cachePut ((CACHE_NAME, es0) :: rest) CACHE_NAME e.1 e.2 =
        (CACHE_NAME, entryPut es0 e.1 e.2) :: rest := by
      simp [cachePut]
    calc putAll ((CACHE_NAME, es0) :: rest) CACHE_NAME (e :: tail)
        = putAll (cachePut ((CACHE_NAME, es0) :: rest) CACHE_NAME e.1 e.2)
            CACHE_NAME tail := rfl
      _ = putAll ((CACHE_NAME, entryPut es0 e.1 e.2) :: rest) CACHE_NAME tail := by
            rw [h1]
      _ = (CACHE_NAME, entryPutAll (entryPut es0 e.1 e.2) tail) :: rest := ih _
      _ = (CACHE_NAME, entryPutAll es0 (e :: tail)) :: rest := by
            simp [entryPutAll]

theorem genGet_cacheOpen_fresh (s : CacheStorage) (name : String)
    (h : name ∉ s.map Prod.fst) :
    genGet (cacheOpen s name) name = some [] := by
  induction s with
  | nil => simp [cacheOpen, genGet, List.find?]
  | cons g rest ih =>
    simp only [List.map_cons, List.mem_cons, not_or] at h
    have hg : (g.1 == name) = false := by
      simpa using fun hc => h.1 hc.symm
    rw [show cacheOpen (g :: rest) name = g :: cacheOpen rest name by
      simp [cacheOpen, hg]]
    rw [show genGet (g :: cacheOpen rest name) name =
        genGet (cacheOpen rest name) name by
      simp [genGet, List.find?, hg]]
    exact ih h.2

theorem names_cachePut_of_mem (s : CacheStorage) (name url : String)
    (r : Response) (h : name ∈ s.map Prod.fst) :
    (cachePut s name url r).map Prod.fst = s.map Prod.fst := by
  induction s with
  | nil => simp at h
  | cons g rest ih =>
    by_cases hg : g.1 == name
    · simp [cachePut, hg]
    · have hne : g.1 ≠ name := by simpa using hg
      have hmem : name ∈ rest.map Prod.fst := by
        simp only [List.map_cons, List.mem_cons] at h
        rcases h with hh | ht
        · exact absurd hh.symm hne
        · exact ht
      simp [cachePut, hg, ih hmem]

theorem mem_names_cacheOpen (s : CacheStorage) (name : String) :
    name ∈ (cacheOpen s name).map Prod.fst := by
  induction s with
  | nil => simp [cacheOpen]
  | cons g rest ih =>
    by_cases hg : g.1 == name
    · have : g.1 = name := by simpa using hg
      simp [cacheOpen, hg, this]
    · rw [show cacheOpen (g :: rest) name = g :: cacheOpen rest name by
        simp [cacheOpen, hg]]
      simp only [List.map_cons, List.mem_cons]
      exact Or.inr ih

theorem names_putAll_of_mem (s : CacheStorage) (name : String)
    (es : List (String × Response)) (h : name ∈ s.map Prod.fst) :
    (putAll s name es).map Prod.fst = s.map Prod.fst := by
  induction es generalizing s with
  | nil => rfl
  | cons e tail ih =>
    have h1 := names_cachePut_of_mem s name e.1 e.2 h
    have h2 : name ∈ (cachePut s name e.1 e.2).map Prod.fst := by
      rw [h1]; exact h
    calc (putAll s name (e :: tail)).map Prod.fst
        = (putAll (cachePut s name e.1 e.2) name tail).map Prod.fst := rfl
      _ = (cachePut s name e.1 e.2).map Prod.fst := ih _ h2
      _ = s.map Prod.fst := h1

theorem names_cacheOpen_eq (s : CacheStorage) (name : String) :
    (cacheOpen s name).map Prod.fst =
      if name ∈ s.map Prod.fst then s.map Prod.fst
      else s.map Prod.fst ++ [name] := by
  induction s with
  | nil => simp [cacheOpen]
  | cons g rest ih =>
    by_cases hg : g.1 == name
    · have hg' : g.1 = name := by simpa using hg
      rw [show cacheOpen (g :: rest) name = g :: rest by simp [cacheOpen, hg]]
      rw [if_pos (by simp [hg'])]
    · have hne : g.1 ≠ name := by simpa using hg
      rw [show cacheOpen (g :: rest) name = g :: cacheOpen rest name by
        simp [cacheOpen, hg]]
      by_cases hmem : name ∈ rest.map Prod.fst
      · rw [if_pos (by simp [hmem])]
        simp only [List.map_cons]
        rw [ih, if_pos hmem]
      · rw [if_neg (by
          simp only [List.map_cons, List.mem_cons, not_or]
          exact ⟨fun hc => hne hc.symm, hmem⟩)]
        simp only [List.map_cons, List.cons_append]
        rw [ih, if_neg hmem]

theorem names_activate (s : CacheStorage) :
    (activate s).map Prod.fst =
      (s.map Prod.fst).filter (fun n => n == CACHE_NAME) := by
  induction s with
  | nil => rfl
  | cons g rest ih =>
    by_cases hg : g.1 == CACHE_NAME
    · rw [show activate (g :: rest) = g :: activate rest by
        simp [activate, List.filter_cons, hg]]
      simp only [List.map_cons]
      rw [List.filter_cons, if_pos hg, ih]
    · rw [show activate (g :: rest) = activate rest by
        simp [activate, List.filter_cons, hg]]
      simp only [List.map_cons]
      rw [List.filter_cons, if_neg hg, ih]

theorem filter_beq_singleton (l : List String) (a : String)
    (hnd : l.Nodup) (ha : a ∈ l) :
    l.filter (fun n => n == a) = [a] := by
  induction l with
  | nil => simp at ha
  | cons b rest ih =>
    rcases List.mem_cons.mp ha with hb | hr
    · have hnot : a ∉ rest := by
        rw [hb]; exact (List.nodup_cons.mp hnd).1
      have hres : rest.filter (fun n => n == a) = [] := by
        apply List.filter_eq_nil_iff.mpr
        intro x hx
        simp only [beq_iff_eq]
        intro hxa
        exact hnot (hxa ▸ hx)
      rw [← hb, List.filter_cons_of_pos (by simp), hres]
    · have hbne : b ≠ a := by
        intro hc
        rw [hc] at hnd
        exact (List.nodup_cons.mp hnd).1 hr
      rw [List.filter_cons_of_neg (by simpa using hbne)]
      exact ih (List.nodup_cons.mp hnd).2 hr

theorem cachesMatch_cachePut_of_none (s : CacheStorage) (name url : String)
    (r : Response) (h : cachesMatch s url = none) :
    cachesMatch (cachePut s name url r) url = some r := by
  induction s with
  | nil => simp [cachePut, cachesMatch, cacheMatch, List.find?]
  | cons g rest ih =>
    rw [cachesMatch_cons] at h
    cases hm : cacheMatch g.2 url with
    | some x => rw [hm] at h; simp at h
    | none =>
      rw [hm] at h
      by_cases hg : g.1 == name
      · rw [show cachePut (g :: rest) name url r =
            (g.1, entryPut g.2 url r) :: rest by simp [cachePut, hg]]
        rw [cachesMatch_cons]
        simp [cacheMatch_entryPut_self]
      · rw [show cachePut (g :: rest) name url r =
            g :: cachePut rest name url r by simp [cachePut, hg]]
        rw [cachesMatch_cons, hm]
        exact ih h

/-!  Claim theorems. -/

/-- C7: for every request whose method is not GET, the handler does not
intercept the request at all: it passes through and the cache state is
unchanged, with no cache read or write and no network fetch performed by
the handler. -/
theorem handle_non_get_pass_through (net : Network) (s : CacheStorage)
    (req : Request) (hm : req.method ≠ "GET") :
    handleFetch net s req = ⟨.passThrough, s, []⟩ := by
  have h : (req.method != "GET") = true := by simpa using hm
  simp [handleFetch, h]

theorem handle_non_get_pass_through_witness :
    handleFetch okNet hitStorage ⟨"POST", "/api/data", ""⟩ =
      ⟨.passThrough, hitStorage, []⟩ :=
  handle_non_get_pass_through okNet hitStorage ⟨"POST", "/api/data", ""⟩
    (by decide)

/-- C5 (amended): for every GET request matching the static asset set
whose cached entry is present, the handler returns the cached response,
performs no network fetch at all (in particular no background refresh),
and leaves the storage unchanged. -/
theorem static_hit_serves_cached_without_fetch (net : Network)
    (s : CacheStorage) (req : Request) (cached : Response)
    (hm : req.method = "GET") (hs : isStaticUrl req.url = true)
    (hc : cachesMatch s req.url = some cached) :
    handleFetch net s req = ⟨.respond cached, s, []⟩ := by
  simp [handleFetch, hm, hs, hc]

theorem static_hit_serves_cached_without_fetch_witness :
    handleFetch freshNet hitStorage ⟨"GET", "/index.html", "navigate"⟩ =
      ⟨.respond ⟨200, "old"⟩, hitStorage, []⟩ :=
  static_hit_serves_cached_without_fetch freshNet hitStorage
    ⟨"GET", "/index.html", "navigate"⟩ ⟨200, "old"⟩
    (by decide) (by decide) (by decide)

/-- C5 (counterexample): on a cache hit for the static asset
`/index.html`, even though the network would deliver fresh content, the
handler performs no network fetch and the stored entry keeps its old
content: there is no background refresh. -/
theorem static_hit_no_refresh_cex :
    (handleFetch freshNet hitStorage ⟨"GET", "/index.html", ""⟩).fetched = [] ∧
    (handleFetch freshNet hitStorage ⟨"GET", "/index.html", ""⟩).storage =
      hitStorage ∧
    cachesMatch (handleFetch freshNet hitStorage
      ⟨"GET", "/index.html", ""⟩).storage "/index.html" = some ⟨200, "old"⟩ := by
  decide

/-- C8 (amended): for every dynamic (non-static) GET request whose
network fetch succeeds, the handler returns the network response
directly and performs no cache write: the storage is unchanged and no
cached entry is ever created for dynamic requests. -/
theorem dynamic_success_returned_directly (net : Network) (s : CacheStorage)
    (req : Request) (resp : Response) (hm : req.method = "GET")
    (hs : isStaticUrl req.url = false) (hn : net req.url = some resp) :
    handleFetch net s req = ⟨.respond resp, s, [req.url]⟩ := by
  simp [handleFetch, hm, hs, hn]

theorem dynamic_success_returned_directly_witness :
    handleFetch apiNet hitStorage ⟨"GET", "/api/data", ""⟩ =
      ⟨.respond ⟨200, "data"⟩, hitStorage, ["/api/data"]⟩ :=
  dynamic_success_returned_directly apiNet hitStorage
    ⟨"GET", "/api/data", ""⟩ ⟨200, "data"⟩ (by decide) (by decide) (by decide)

/-- C8 (counterexample): the first successful network fetch of the
dynamic GET request `/api/data` creates no cached entry: the storage
stays empty and a subsequent cache lookup still misses. -/
theorem dynamic_first_fetch_not_cached_cex :
    handleFetch apiNet [] ⟨"GET", "/api/data", ""⟩ =
      ⟨.respond ⟨200, "data"⟩, [], ["/api/data"]⟩ ∧
    cachesMatch (handleFetch apiNet [] ⟨"GET", "/api/data", ""⟩).storage
      "/api/data" = none := by
  decide

/-- C9: the GET request `/evil/index.html` is not a member of the static
asset set, yet suffix matching classifies it as static and it is handled
by the cache-first branch (on a cache miss it is fetched and written
into the static generation, which the dynamic branch never does). -/
theorem suffix_match_misclassifies_evil_url :
    isStaticUrl "/evil/index.html" = true ∧
    "/evil/index.html" ∉ STATIC_ASSETS ∧
    handleFetch evilNet [] ⟨"GET", "/evil/index.html", ""⟩ =
      ⟨.respond ⟨200, "evil"⟩,
       [(CACHE_NAME, [("/evil/index.html", ⟨200, "evil"⟩)])],
       ["/evil/index.html"]⟩ := by
  decide

/-- C4: for every non-static GET request whose network fetch fails, the
handler degrades: a navigation with the offline page cached gets the
cached offline entry (with its stored status), any other request gets an
empty 503 response, and in no case is the outcome a rejected promise. -/
theorem dynamic_network_failure_fallback (net : Network) (s : CacheStorage)
    (req : Request) (hm : req.method = "GET")
    (hs : isStaticUrl req.url = false) (hn : net req.url = none) :
    (∀ off, req.mode = "navigate" → cachesMatch s OFFLINE_PAGE = some off →
      handleFetch net s req = ⟨.respond off, s, [req.url]⟩) ∧
    (req.mode ≠ "navigate" →
      handleFetch net s req = ⟨.respond ⟨503, ""⟩, s, [req.url]⟩) ∧
    (handleFetch net s req).result ≠ .failed := by
  refine ⟨?_, ?_, ?_⟩
  · intro off hmode hoff
    simp [handleFetch, hm, hs, hn, hmode, hoff]
  · intro hmode
    have h : (req.mode == "navigate") = false := by simpa using hmode
    simp [handleFetch, hm, hs, hn, h]
  · by_cases hmode : req.mode = "navigate"
    · cases hoff : cachesMatch s OFFLINE_PAGE with
      | some off => simp [handleFetch, hm, hs, hn, hmode, hoff]
      | none => simp [handleFetch, hm, hs, hn, hmode, hoff]
    · have h : (req.mode == "navigate") = false := by simpa using hmode
      simp [handleFetch, hm, hs, hn, h]

theorem dynamic_network_failure_fallback_witness :
    handleFetch deadNet offlineStorage ⟨"GET", "/page", "navigate"⟩ =
      ⟨.respond ⟨200, "off"⟩, offlineStorage, ["/page"]⟩ ∧
    handleFetch deadNet offlineStorage ⟨"GET", "/api/data", "cors"⟩ =
      ⟨.respond ⟨503, ""⟩, offlineStorage, ["/api/data"]⟩ :=
  ⟨(dynamic_network_failure_fallback deadNet offlineStorage
      ⟨"GET", "/page", "navigate"⟩ (by decide) (by decide) (by decide)).1
      ⟨200, "off"⟩ (by decide) (by decide),
   (dynamic_network_failure_fallback deadNet offlineStorage
      ⟨"GET", "/api/data", "cors"⟩ (by decide) (by decide) (by decide)).2.1
      (by decide)⟩

/-- C10: the native formula functions are total with guarded division:
`calculate_stress` returns 0 whenever the area is non-positive, and
`calculate_displacement` returns 0 whenever the area or the modulus is
non-positive, so neither divides by a non-positive denominator. -/
theorem formulas_guard_nonpositive_denominators :
    (∀ force area : ℚ, area ≤ 0 → calculate_stress force area = 0) ∧
    (∀ force length area modulus : ℚ, area ≤ 0 ∨ modulus ≤ 0 →
      calculate_displacement force length area modulus = 0) := by
  constructor
  · intro f a h
    simp [calculate_stress, h]
  · intro f l a m h
    simp [calculate_displacement, h]

theorem formulas_guard_nonpositive_denominators_witness :
    calculate_stress 7 (-2) = 0 ∧ calculate_displacement 7 3 2 (-1) = 0 :=
  ⟨formulas_guard_nonpositive_denominators.1 7 (-2) (by norm_num),
   formulas_guard_nonpositive_denominators.2 7 3 2 (-1)
     (Or.inr (by norm_num))⟩

/-- C6: for every GET request matching the static asset set whose
cached entry is absent, the handler fetches from the network, stores the
response under the request url if and only if the status is 200, and
returns the network response either way. -/
theorem static_miss_fetch_and_store_iff_200 (net : Network) (s : CacheStorage)
    (req : Request) (resp : Response) (hm : req.method = "GET")
    (hs : isStaticUrl req.url = true) (hc : cachesMatch s req.url = none)
    (hn : net req.url = some resp) :
    (handleFetch net s req).result = .respond resp ∧
    (handleFetch net s req).fetched = [req.url] ∧
    (resp.status = 200 →
      (handleFetch net s req).storage = cachePut s CACHE_NAME req.url resp ∧
      cachesMatch (handleFetch net s req).storage req.url = some resp) ∧
    (resp.status ≠ 200 → (handleFetch net s req).storage = s) := by
  by_cases h200 : resp.status = 200
  · have hb : (resp.status == 200) = true := by simpa using h200
    have heq : handleFetch net s req =
        ⟨.respond resp, cachePut s CACHE_NAME req.url resp, [req.url]⟩ := by
      simp [handleFetch, hm, hs, hc, hn, hb]
    refine ⟨by rw [heq], by rw [heq], ?_, ?_⟩
    · intro _
      refine ⟨by rw [heq], ?_⟩
      rw [heq]
      exact cachesMatch_cachePut_of_none s CACHE_NAME req.url resp hc
    · intro hne; exact absurd h200 hne
  · have hb : (resp.status == 200) = false := by simpa using h200
    have heq : handleFetch net s req = ⟨.respond resp, s, [req.url]⟩ := by
      simp [handleFetch, hm, hs, hc, hn, hb]
    exact ⟨by rw [heq], by rw [heq], fun h => absurd h h200, fun _ => by rw [heq]⟩

theorem static_miss_fetch_and_store_iff_200_witness :
    (handleFetch okNet [] ⟨"GET", "/manifest.json", ""⟩).result =
      .respond ⟨200, "/manifest.json"⟩ ∧
    cachesMatch (handleFetch okNet [] ⟨"GET", "/manifest.json", ""⟩).storage
      "/manifest.json" = some ⟨200, "/manifest.json"⟩ :=
  ⟨(static_miss_fetch_and_store_iff_200 okNet [] ⟨"GET", "/manifest.json", ""⟩
      ⟨200, "/manifest.json"⟩ (by decide) (by decide) (by decide) (by decide)).1,
   ((static_miss_fetch_and_store_iff_200 okNet [] ⟨"GET", "/manifest.json", ""⟩
      ⟨200, "/manifest.json"⟩ (by decide) (by decide) (by decide)
      (by decide)).2.2.1 (by decide)).2⟩

/-- C1: for every identifier in the static asset set, after a successful
install followed by activate, a GET request for that identifier is
answered from the cache with the response fetched at install time: the
handler performs no network fetch (any post-activation network `net2`,
even unreachable, gives the same outcome) and leaves storage unchanged. -/
theorem static_served_from_cache_after_install_activate
    (net net2 : Network) (s : CacheStorage) (a mode : String)
    (ha : a ∈ STATIC_ASSETS) (hok : (install net s).ok = true) :
    ∃ r, net a = some r ∧
      handleFetch net2 (activate (install net s).storage) ⟨"GET", a, mode⟩ =
        ⟨.respond r, activate (install net s).storage, []⟩ := by
  cases hfa : fetchAll net STATIC_ASSETS with
  | none => simp [install, hfa] at hok
  | some es =>
    have hstore : (install net s).storage =
        putAll (cacheOpen s CACHE_NAME) CACHE_NAME es := by
      simp [install, hfa]
    obtain ⟨r, hres, hnet⟩ := fetchAll_mem net STATIC_ASSETS es a hfa ha
    have hnd : (es.map Prod.fst).Nodup := by
      rw [fetchAll_map_fst net STATIC_ASSETS es hfa]; decide
    have hact : activate (install net s).storage =
        putAll (cacheOpen (activate s) CACHE_NAME) CACHE_NAME es := by
      rw [hstore, activate_putAll, activate_cacheOpen]
    obtain ⟨es0, rest, hhead⟩ := cacheOpen_activate_head s
    have hmatch : cachesMatch (activate (install net s).storage) a = some r := by
      rw [hact, hhead, putAll_head, cachesMatch_cons]
      rw [show ((CACHE_NAME, entryPutAll es0 es) : String × CacheEntries).2 =
          entryPutAll es0 es from rfl]
      rw [cacheMatch_entryPutAll_mem es es0 a r hnd hres]
    have hstatic : isStaticUrl a = true := by
      fin_cases ha <;> decide
    exact ⟨r, hnet, by simp [handleFetch, hstatic, hmatch]⟩

theorem static_served_from_cache_after_install_activate_witness :
    ∃ r, okNet "/index.html" = some r ∧
      handleFetch deadNet (activate (install okNet []).storage)
        ⟨"GET", "/index.html", "navigate"⟩ =
        ⟨.respond r, activate (install okNet []).storage, []⟩ :=
  static_served_from_cache_after_install_activate okNet deadNet []
    "/index.html" "navigate" (by decide) (by decide)

/-- C2: install is atomic: if the fetch of any single asset of the
static asset set fails, install as a whole fails, the attempted
generation holds zero entries, and every cache lookup still resolves
exactly as before the attempt (the previous generation keeps serving). -/
theorem install_atomic_on_failure (net : Network) (s : CacheStorage)
    (a : String) (ha : a ∈ STATIC_ASSETS) (hfail : net a = none) :
    (install net s).ok = false ∧
    (∀ url, cachesMatch (install net s).storage url = cachesMatch s url) ∧
    (CACHE_NAME ∉ s.map Prod.fst →
      genGet (install net s).storage CACHE_NAME = some []) := by
  have hfa : fetchAll net STATIC_ASSETS = none :=
    fetchAll_none net STATIC_ASSETS a ha hfail
  have hstore : (install net s).storage = cacheOpen s CACHE_NAME := by
    simp [install, hfa]
  refine ⟨by simp [install, hfa], ?_, ?_⟩
  · intro url
    rw [hstore, cachesMatch_cacheOpen]
  · intro hfresh
    rw [hstore]
    exact genGet_cacheOpen_fresh s CACHE_NAME hfresh

theorem install_atomic_on_failure_witness :
    (install failNet oldStorage).ok = false ∧
    cachesMatch (install failNet oldStorage).storage "/" =
      cachesMatch oldStorage "/" ∧
    genGet (install failNet oldStorage).storage CACHE_NAME = some [] :=
  ⟨(install_atomic_on_failure failNet oldStorage "/index.html"
      (by decide) (by decide)).1,
   (install_atomic_on_failure failNet oldStorage "/index.html"
      (by decide) (by decide)).2.1 "/",
   (install_atomic_on_failure failNet oldStorage "/index.html"
      (by decide) (by decide)).2.2 (by decide)⟩

/-- C3: after a successful install from any storage with distinct
generation names, activate deletes every generation whose name differs
from the newly installed generation's name: exactly one generation
remains, named `CACHE_NAME`. -/
theorem activate_leaves_single_generation (net : Network) (s : CacheStorage)
    (hnd : (s.map Prod.fst).Nodup) (hok : (install net s).ok = true) :
    (activate (install net s).storage).map Prod.fst = [CACHE_NAME] := by
  cases hfa : fetchAll net STATIC_ASSETS with
  | none => simp [install, hfa] at hok
  | some es =>
    have hstore : (install net s).storage =
        putAll (cacheOpen s CACHE_NAME) CACHE_NAME es := by
      simp [install, hfa]
    have hmem : CACHE_NAME ∈ (cacheOpen s CACHE_NAME).map Prod.fst :=
      mem_names_cacheOpen s CACHE_NAME
    have hnames : (install net s).storage.map Prod.fst =
        (cacheOpen s CACHE_NAME).map Prod.fst := by
      rw [hstore]
      exact names_putAll_of_mem _ _ _ hmem
    have hndopen : ((cacheOpen s CACHE_NAME).map Prod.fst).Nodup := by
      rw [names_cacheOpen_eq]
      by_cases h : CACHE_NAME ∈ s.map Prod.fst
      · rw [if_pos h]; exact hnd
      · rw [if_neg h]
        refine hnd.append (List.nodup_singleton _) ?_
        intro x hx hxc
        rw [List.mem_singleton] at hxc
        subst hxc
        exact h hx
    rw [names_activate, hnames]
    exact filter_beq_singleton _ _ hndopen hmem

theorem activate_leaves_single_generation_witness :
    (activate (install okNet oldStorage).storage).map Prod.fst =
      [CACHE_NAME] :=
  activate_leaves_single_generation okNet oldStorage (by decide) (by decide)
